import Mathlib

/-!
Verification of the two NINA API fetch scripts
(`fetch_astromele3_combined.py` and `fetch_status_endpoints.py`).

Python strings are modelled as lists of characters (`Str`); the OpenAPI
`paths` object is modelled as an insertion-ordered association list; the
network is modelled as a function from request URL to an `HttpResult`
(transport error, or a response with a status code and an optionally
JSON-parseable body).  Each script's pipeline is embedded as a pure
function over these inputs.
-/

namespace NinaFetch

/-- Python strings, modelled as lists of characters. -/
abbrev Str := List Char

/-- The Python substring test `needle in haystack` (unanchored; an empty
needle is contained in every string). -/
def pyContains (haystack needle : Str) : Bool :=
  match haystack with
  | [] => needle.isEmpty
  | c :: rest => needle.isPrefixOf (c :: rest) || pyContains rest needle

/-- Python `str.lower`, restricted to ASCII (the API paths are ASCII). -/
def pyLower (s : Str) : Str :=
  s.map fun c => if 'A' ≤ c ∧ c ≤ 'Z' then Char.ofNat (c.toNat + 32) else c

/-- Python `s.replace(a, b)` for single characters. -/
def pyReplace (s : Str) (a b : Char) : Str :=
  s.map fun c => if c = a then b else c

/-- Python `s.strip(c)`: remove every leading and trailing occurrence of
the character `c`. -/
def pyStrip (s : Str) (c : Char) : Str :=
  ((s.dropWhile (· == c)).reverse.dropWhile (· == c)).reverse

/-- The metadata found under a path's `get` method in the spec document:
each of `summary`, `description` and `tags` may be absent. -/
structure OpMeta where
  summary : Option Str
  description : Option Str
  tags : Option (List Str)
deriving DecidableEq

/-- One value of the top-level `paths` mapping: whether a `get` method is
declared (with its metadata), plus the names of any other declared HTTP
methods (never inspected by either script). -/
structure MethodsEntry where
  get : Option OpMeta
  otherMethods : List Str
deriving DecidableEq

/-- The spec document's top-level `paths` object: an insertion-ordered
mapping from path string to its methods entry. -/
abbrev PathsMap := List (Str × MethodsEntry)

/-- The record both scripts build per GET endpoint (`endpoint_info` in the
source): `summary`/`description` default to the empty string, `tags` to the
empty list. -/
structure Operation where
  path : Str
  summary : Str
  description : Str
  tags : List Str
deriving DecidableEq

/-- `get_endpoints` of `fetch_astromele3_combined.py` (lines 14-23): every
path declaring a `get` method, in spec iteration order. -/
def getEndpointsCombined (paths : PathsMap) : List Operation :=
  paths.filterMap fun pm =>
    match pm.2.get with
    | none => none
    | some g =>
        some { path := pm.1, summary := g.summary.getD [],
               description := g.description.getD [], tags := g.tags.getD [] }

/-- `control_keywords` of `fetch_astromele3_combined.py` (lines 28-34). -/
def controlKeywordsCombined : List Str :=
  ["connect".data, "disconnect".data, "set-".data, "change-".data,
   "add-".data, "remove-".data, "cool".data, "warm".data, "abort".data,
   "move".data, "slew".data, "park".data, "unpark".data, "home".data,
   "start".data, "stop".data, "open".data, "close".data, "sync".data,
   "flip".data, "reverse".data, "clear".data, "rescan".data, "switch".data,
   "edit".data, "reset".data, "load".data, "capture".data, "solve".data,
   "determine".data, "auto-focus".data]

/-- `is_control` of `fetch_astromele3_combined.py` (line 44): some control
keyword occurs in the lowercased path. -/
def isControlCombined (path : Str) : Bool :=
  controlKeywordsCombined.any fun keyword => pyContains (pyLower path) keyword

/-- `status_endpoints` of `fetch_astromele3_combined.py` (lines 37-46):
keep a GET endpoint unless its path contains a brace or a control keyword. -/
def statusEndpointsCombined (ge : List Operation) : List Operation :=
  ge.filter fun endpoint =>
    !(pyContains endpoint.path ['{']) && !(isControlCombined endpoint.path)

/-- `get_endpoints` of `fetch_status_endpoints.py` (lines 14-23); the code
is a verbatim copy of the combined script's extraction loop. -/
def getEndpointsPerFile (paths : PathsMap) : List Operation :=
  paths.filterMap fun pm =>
    match pm.2.get with
    | none => none
    | some g =>
        some { path := pm.1, summary := g.summary.getD [],
               description := g.description.getD [], tags := g.tags.getD [] }

/-- `control_keywords` of `fetch_status_endpoints.py` (lines 35-41). -/
def controlKeywordsPerFile : List Str :=
  ["connect".data, "disconnect".data, "set-".data, "change-".data,
   "add-".data, "remove-".data, "cool".data, "warm".data, "abort".data,
   "move".data, "slew".data, "park".data, "unpark".data, "home".data,
   "start".data, "stop".data, "open".data, "close".data, "sync".data,
   "flip".data, "reverse".data, "clear".data, "rescan".data, "switch".data,
   "edit".data, "reset".data, "load".data, "capture".data, "solve".data,
   "determine".data, "auto-focus".data]

/-- `is_control` of `fetch_status_endpoints.py` (line 51). -/
def isControlPerFile (path : Str) : Bool :=
  controlKeywordsPerFile.any fun keyword => pyContains (pyLower path) keyword

/-- `status_endpoints` of `fetch_status_endpoints.py` (lines 44-53). -/
def statusEndpointsPerFile (ge : List Operation) : List Operation :=
  ge.filter fun endpoint =>
    !(pyContains endpoint.path ['{']) && !(isControlPerFile endpoint.path)

/-- `base_url` (both scripts, line 11). -/
def baseUrl : Str := "http://astromele3.lan:1888/v2/api".data

/-- `filename` of `fetch_status_endpoints.py` (line 79):
`path.replace('/', '_').strip('_') + '.json'`. -/
def fileNameFor (path : Str) : Str :=
  pyStrip (pyReplace path '/' '_') '_' ++ ".json".data

/-- `endpoint_key` of `fetch_astromele3_combined.py` (line 90):
`path.strip('/')`. -/
def endpointKeyFor (path : Str) : Str :=
  pyStrip path '/'

/-- JSON values, as produced by parsing a response body. -/
inductive JsonVal where
  | null
  | bool (b : Bool)
  | num (n : Int)
  | str (s : Str)
  | arr (elems : List JsonVal)
  | obj (fields : List (Str × JsonVal))

/-- The network, seen from one `requests.get(url, timeout=10)` call:
either the library raises (connection error / timeout), or a response
arrives with a status code and a body that may or may not parse as JSON. -/
inductive HttpResult where
  | transportError (message : Str)
  | response (statusCode : Nat) (body : Option JsonVal)

/-- `response.raise_for_status()` raises exactly when
`400 <= status_code < 600`. -/
def raiseForStatus (code : Nat) : Bool :=
  decide (400 ≤ code) && decide (code < 600)

/-- Model of `str(e)` for an HTTP error raised by `raise_for_status`
(the exact text is internal to the requests library). -/
def httpErrorMessage (code : Nat) : Str :=
  "HTTP error ".data ++ (toString code).data

/-- Model of `str(e)` for a `response.json()` decode failure (a
`RequestException` subclass, so it is caught by the same handler). -/
def jsonDecodeErrorMessage : Str :=
  "JSON decode error".data

/-- The per-endpoint outcome assembled by the combined script's loop body
(lines 103-130): on success the status code and parsed body are recorded;
on any `RequestException` the error text is recorded and `data` is `None`. -/
structure FetchOutcome where
  endpoint : Operation
  success : Bool
  statusCode : Option Nat
  errorMessage : Option Str
  data : Option JsonVal

/-- One iteration of the combined script's fetch loop (lines 103-130),
given the network's behaviour on the requested URL. -/
def fetchOne (http : Str → HttpResult) (op : Operation) : FetchOutcome :=
  match http (baseUrl ++ op.path) with
  | HttpResult.transportError msg =>
      { endpoint := op, success := false, statusCode := none,
        errorMessage := some msg, data := none }
  | HttpResult.response code body =>
      if raiseForStatus code then
        { endpoint := op, success := false, statusCode := none,
          errorMessage := some (httpErrorMessage code), data := none }
      else
        match body with
        | none =>
            { endpoint := op, success := false, statusCode := none,
              errorMessage := some jsonDecodeErrorMessage, data := none }
        | some j =>
            { endpoint := op, success := true, statusCode := some code,
              errorMessage := none, data := some j }

/-- The value stored under one key of `combined_data['endpoints']`
(lines 91-127): endpoint documentation plus fetch status plus data. -/
structure EndpointEntry where
  path : Str
  fullUrl : Str
  summary : Str
  description : Str
  tags : List Str
  success : Bool
  statusCode : Option Nat
  errorMessage : Option Str
  data : Option JsonVal

/-- The endpoints-map entry written for one outcome. -/
def entryOf (o : FetchOutcome) : EndpointEntry :=
  { path := o.endpoint.path, fullUrl := baseUrl ++ o.endpoint.path,
    summary := o.endpoint.summary, description := o.endpoint.description,
    tags := o.endpoint.tags, success := o.success,
    statusCode := o.statusCode, errorMessage := o.errorMessage,
    data := o.data }

/-- Python dict assignment on an insertion-ordered association list:
an existing key keeps its position and gets the new value, a new key is
appended at the end. -/
def dictInsert {α : Type} : List (Str × α) → Str → α → List (Str × α)
  | [], k, v => [(k, v)]
  | (k', v') :: t, k, v =>
      if k' = k then (k, v) :: t else (k', v') :: dictInsert t k v

/-- Python dict lookup on the association-list model. -/
def dictLookup {α : Type} : List (Str × α) → Str → Option α
  | [], _ => none
  | (k', v') :: t, k => if k' = k then some v' else dictLookup t k

/-- Everything the combined script's run produces once the spec document
has been read successfully: metadata counts, the `endpoints` dict, and the
sequence of per-endpoint outcomes in loop order. -/
structure CombinedOutput where
  apiVersion : Str
  totalGetEndpoints : Nat
  statusEndpointsFetched : Nat
  endpoints : List (Str × EndpointEntry)
  successfulFetches : Nat
  failedFetches : Nat
  outcomes : List FetchOutcome

/-- The combined script's classification plus fetch loop (lines 14-134),
for a spec whose `paths` and `info.version` are both present. -/
def combinedRunCore (pm : PathsMap) (version : Str)
    (http : Str → HttpResult) : CombinedOutput :=
  let ge := getEndpointsCombined pm
  let se := statusEndpointsCombined ge
  let outcomes := se.map (fetchOne http)
  { apiVersion := version
  , totalGetEndpoints := ge.length
  , statusEndpointsFetched := se.length
  , endpoints := outcomes.foldl
      (fun m o => dictInsert m (endpointKeyFor o.endpoint.path) (entryOf o)) []
  , successfulFetches := outcomes.countP (fun o => o.success)
  , failedFetches := outcomes.countP (fun o => !o.success)
  , outcomes := outcomes }

/-- The two missing-field failures of the spec loader: `api_spec['paths']`
(line 15) and `api_spec['info']['version']` (line 59) raise `KeyError`. -/
inductive MalformedSpecError where
  | missingPaths
  | missingInfoVersion
deriving DecidableEq

/-- The loaded spec document, keeping only the two fields the scripts
read: the `paths` mapping and `info.version`, each possibly absent. -/
structure SpecDoc where
  paths : Option PathsMap
  infoVersion : Option Str

/-- The combined script's whole run.  The second component lists the URLs
GET-requested, in order.  `api_spec['paths']` is read at line 15 and
`api_spec['info']['version']` at line 59, while the metadata block is
built; both precede the fetch loop (line 83), so either missing field
aborts the run with no request issued. -/
def runCombined (doc : SpecDoc) (http : Str → HttpResult) :
    Except MalformedSpecError CombinedOutput × List Str :=
  match doc.paths with
  | none => (Except.error MalformedSpecError.missingPaths, [])
  | some pm =>
      match doc.infoVersion with
      | none => (Except.error MalformedSpecError.missingInfoVersion, [])
      | some v =>
          (Except.ok (combinedRunCore pm v http),
           (statusEndpointsCombined (getEndpointsCombined pm)).map
             fun op => baseUrl ++ op.path)

/-- One record of the per-endpoint script's `results` list (lines 99-112):
`status` is `'success'` or `'error'`; `filename` and `status_code` are
present only on success, `error` only on failure. -/
structure PerResult where
  endpoint : Str
  isSuccess : Bool
  savedFile : Option Str
  statusCode : Option Nat
  errorMessage : Option Str
deriving DecidableEq

/-- One iteration of the per-endpoint script's fetch loop (lines 74-112). -/
def perFetchOne (http : Str → HttpResult) (op : Operation) : PerResult :=
  match http (baseUrl ++ op.path) with
  | HttpResult.transportError msg =>
      { endpoint := op.path, isSuccess := false, savedFile := none,
        statusCode := none, errorMessage := some msg }
  | HttpResult.response code body =>
      if raiseForStatus code then
        { endpoint := op.path, isSuccess := false, savedFile := none,
          statusCode := none, errorMessage := some (httpErrorMessage code) }
      else
        match body with
        | none =>
            { endpoint := op.path, isSuccess := false, savedFile := none,
              statusCode := none, errorMessage := some jsonDecodeErrorMessage }
        | some _ =>
            { endpoint := op.path, isSuccess := true,
              savedFile := some (fileNameFor op.path),
              statusCode := some code, errorMessage := none }

/-- The per-endpoint script's `summary` manifest (lines 115-121). -/
structure PerSummary where
  totalGetEndpoints : Nat
  totalStatusEndpoints : Nat
  successfulFetches : Nat
  failedFetches : Nat
  results : List PerResult
deriving DecidableEq

/-- The per-endpoint script's classification plus fetch loop plus summary
(lines 14-121). -/
def runPerFile (pm : PathsMap) (http : Str → HttpResult) : PerSummary :=
  let ge := getEndpointsPerFile pm
  let se := statusEndpointsPerFile ge
  let results := se.map (perFetchOne http)
  { totalGetEndpoints := ge.length
  , totalStatusEndpoints := se.length
  , successfulFetches := results.countP (fun r => r.isSuccess)
  , failedFetches := results.countP (fun r => !r.isSuccess)
  , results := results }

/-- The report bucket of an endpoint (combined script, lines 192-193):
the first declared tag, or `"Other"` when the tag list is empty. -/
def categoryOf (endpoint : Operation) : Str :=
  match endpoint.tags with
  | [] => "Other".data
  | t :: _ => t

/-- Appending one endpoint to its category's bucket (combined script,
lines 194-196): a fresh category is appended at the end of the dict, an
existing one keeps its position and grows its list. -/
def addToCategory :
    List (Str × List Operation) → Str → Operation → List (Str × List Operation)
  | [], c, endpoint => [(c, [endpoint])]
  | (c', eps) :: t, c, endpoint =>
      if c' = c then (c', eps ++ [endpoint]) :: t
      else (c', eps) :: addToCategory t c endpoint

/-- `by_category` of the combined script (lines 190-196). -/
def byCategory (se : List Operation) : List (Str × List Operation) :=
  se.foldl (fun m endpoint => addToCategory m (categoryOf endpoint) endpoint) []

/-- Python string comparison `s <= t`: lexicographic by code point, a
proper prefix comparing smaller. -/
def strLeB : Str → Str → Bool
  | [], _ => true
  | _ :: _, [] => false
  | a :: as, b :: bs => if a = b then strLeB as bs else decide (a < b)

/-- The report's iteration structure (combined script, lines 198-203):
`sorted(by_category.items())` sorts the buckets by category name (keys are
distinct, so only the key is compared), and within each bucket
`sorted(endpoints, key=path)` sorts the entries by path. -/
def reportBuckets (se : List Operation) : List (Str × List Operation) :=
  ((byCategory se).mergeSort fun x y => strLeB x.1 y.1).map
    fun cv => (cv.1, cv.2.mergeSort fun x y => strLeB x.path y.path)

/-! Concrete sample inputs used to instantiate the theorems below. -/

/-- A methods entry declaring only a bare `get` method. -/
def methodsGetOnly : MethodsEntry :=
  { get := some { summary := none, description := none, tags := none },
    otherMethods := [] }

/-- The operation extracted from a bare `get` entry at `/version`. -/
def opVersion : Operation :=
  { path := "/version".data, summary := [], description := [], tags := [] }

/-- A spec whose only path is `/version` with a bare `get` method. -/
def pmVersionOnly : PathsMap := [("/version".data, methodsGetOnly)]

/-- A network that always answers 200 with JSON body `null`. -/
def httpOk200 : Str → HttpResult :=
  fun _ => HttpResult.response 200 (some JsonVal.null)

/-- A network that always answers 304 (not an error for
`raise_for_status`) with JSON body `null`. -/
def http304 : Str → HttpResult :=
  fun _ => HttpResult.response 304 (some JsonVal.null)

/-- A network that never answers (every request times out). -/
def httpDown : Str → HttpResult :=
  fun _ => HttpResult.transportError "timed out".data

/-- A parameterised GET endpoint. -/
def opImageIndex : Operation :=
  { path := "/image/{index}".data, summary := [], description := [], tags := [] }

/-- A GET endpoint whose path contains the blocklist keyword `park`
mid-word and in mixed case. -/
def opUnparking : Operation :=
  { path := "/mount/Unparking".data, summary := [], description := [], tags := [] }

/-- The operation extracted from a bare `get` entry at `/version/`. -/
def opVersionTrailing : Operation :=
  { path := "/version/".data, summary := [], description := [], tags := [] }

/-- A spec declaring GET at `/version` and at `/version/`: two distinct
classified paths that strip to the same endpoint key. -/
def pmVersionTwice : PathsMap :=
  [("/version".data, methodsGetOnly), ("/version/".data, methodsGetOnly)]

/-- A methods entry for the same path with rich metadata and an extra
non-GET method. -/
def methodsRich : MethodsEntry :=
  { get := some { summary := some "Get the application version".data,
                  description := some "Returns the running version".data,
                  tags := some ["Application".data] },
    otherMethods := ["post".data] }

/-- A spec declaring GET at `/version` with rich metadata. -/
def pmVersionRich : PathsMap := [("/version".data, methodsRich)]

/-- A tagged classified endpoint (`Sequence` category). -/
def opSeqState : Operation :=
  { path := "/sequence/state".data, summary := [], description := [],
    tags := ["Sequence".data] }

/-- A tagged classified endpoint (`Equipment` category). -/
def opCameraInfo : Operation :=
  { path := "/equipment/camera/info".data, summary := [], description := [],
    tags := ["Equipment".data] }

/-- A classified endpoint with no tags (goes to the `Other` bucket). -/
def opNoTags : Operation :=
  { path := "/framing/info".data, summary := [], description := [], tags := [] }

/-- A small classified-endpoint list exercising the report grouping. -/
def opsExample : List Operation := [opSeqState, opCameraInfo, opNoTags]

/-! Helper lemmas. -/

theorem fetchOne_endpoint (http : Str → HttpResult) (op : Operation) :
    (fetchOne http op).endpoint = op := by
  unfold fetchOne
  split
  · rfl
  · split
    · rfl
    · split <;> rfl

theorem perFetchOne_endpoint (http : Str → HttpResult) (op : Operation) :
    (perFetchOne http op).endpoint = op.path := by
  unfold perFetchOne
  split
  · rfl
  · split
    · rfl
    · split <;> rfl

theorem map_fetchOne_endpoint (http : Str → HttpResult) (l : List Operation) :
    (l.map (fetchOne http)).map (fun o => o.endpoint) = l := by
  induction l with
  | nil => rfl
  | cons a t ih => simp [fetchOne_endpoint, ih]

theorem map_perFetchOne_endpoint (http : Str → HttpResult) (l : List Operation) :
    (l.map (perFetchOne http)).map (fun r => r.endpoint)
      = l.map (fun op => op.path) := by
  induction l with
  | nil => rfl
  | cons a t ih => simp [perFetchOne_endpoint, ih]

theorem countP_add_countP_not {β : Type} (p : β → Bool) (l : List β) :
    l.countP p + l.countP (fun a => !p a) = l.length := by
  induction l with
  | nil => rfl
  | cons a t ih =>
      rw [List.countP_cons, List.countP_cons]
      cases h : p a <;> simp [h] <;> omega

/-! Claim theorems. -/

/-- C8: both scripts implement the same classification stage: on every
input `paths` mapping, the GET-extraction and the status filter of
`fetch_astromele3_combined.py` and of `fetch_status_endpoints.py` produce
identical ordered sequences of `Operation`s. -/
theorem scripts_classify_identically (pm : PathsMap) :
    getEndpointsCombined pm = getEndpointsPerFile pm ∧
    statusEndpointsCombined (getEndpointsCombined pm)
      = statusEndpointsPerFile (getEndpointsPerFile pm) :=
  ⟨rfl, rfl⟩

/-- C2: if the spec document lacks the top-level `paths` mapping or the
`info.version` field, the combined run fails with a `MalformedSpecError`
and issues no HTTP request at all. -/
theorem malformedSpec_aborts_before_network (doc : SpecDoc)
    (http : Str → HttpResult)
    (h : doc.paths = none ∨ doc.infoVersion = none) :
    (∃ e, (runCombined doc http).1 = Except.error e) ∧
    (runCombined doc http).2 = [] := by
  obtain ⟨p, v⟩ := doc
  cases p with
  | none => exact ⟨⟨MalformedSpecError.missingPaths, rfl⟩, rfl⟩
  | some pm =>
      cases v with
      | none => exact ⟨⟨MalformedSpecError.missingInfoVersion, rfl⟩, rfl⟩
      | some ver => rcases h with h | h <;> simp at h

/-- C2 witness: a document with no `paths` mapping aborts with an error
and an empty request list. -/
theorem malformedSpec_aborts_before_network_witness :
    ((SpecDoc.mk none (some "2.2.2.0".data)).paths = none ∨
      (SpecDoc.mk none (some "2.2.2.0".data)).infoVersion = none) ∧
    (∃ e, (runCombined (SpecDoc.mk none (some "2.2.2.0".data)) httpDown).1
        = Except.error e) ∧
    (runCombined (SpecDoc.mk none (some "2.2.2.0".data)) httpDown).2 = [] :=
  ⟨Or.inl rfl,
   malformedSpec_aborts_before_network (SpecDoc.mk none (some "2.2.2.0".data))
     httpDown (Or.inl rfl)⟩

/-- C1 counterexample: the classified paths `/version` and `version` are
distinct (they differ only in slash placement), both pass the status
filter, yet they sanitize to the same filename `version.json`. -/
theorem fileName_not_injective_on_classified :
    ("/version".data ≠ ("version".data : Str)) ∧
    statusEndpointsPerFile
        [{ path := "/version".data, summary := [], description := [], tags := [] },
         { path := "version".data, summary := [], description := [], tags := [] }]
      = [{ path := "/version".data, summary := [], description := [], tags := [] },
         { path := "version".data, summary := [], description := [], tags := [] }] ∧
    fileNameFor "/version".data = fileNameFor "version".data :=
  ⟨by decide, by decide, by decide⟩

/-- C1 amended: the per-endpoint filename map is not injective over
distinct classified paths; two filenames coincide exactly when the
slash-to-underscore-replaced, underscore-stripped forms of the two paths
coincide (appending `.json` introduces no further collisions). -/
theorem fileName_collision_characterization (p q : Str) :
    fileNameFor p = fileNameFor q ↔
      pyStrip (pyReplace p '/' '_') '_' = pyStrip (pyReplace q '/' '_') '_' := by
  constructor
  · intro h
    exact List.append_cancel_right h
  · intro h
    unfold fileNameFor
    rw [h]

/-- C5: a path containing a brace character is excluded from the status
subset by both scripts, whatever else the path contains. -/
theorem brace_paths_excluded (ge : List Operation) (op : Operation)
    (h : pyContains op.path ['{'] = true) :
    op ∉ statusEndpointsCombined ge ∧ op ∉ statusEndpointsPerFile ge := by
  constructor <;> intro hmem
  · have h2 := (List.mem_filter.mp hmem).2
    rw [h] at h2
    simp at h2
  · have h2 := (List.mem_filter.mp hmem).2
    rw [h] at h2
    simp at h2

/-- C5 witness: `/image/{index}` is excluded by both scripts. -/
theorem brace_paths_excluded_witness :
    pyContains opImageIndex.path ['{'] = true ∧
    opImageIndex ∉ statusEndpointsCombined [opImageIndex] ∧
    opImageIndex ∉ statusEndpointsPerFile [opImageIndex] :=
  ⟨by decide,
   (brace_paths_excluded [opImageIndex] opImageIndex (by decide)).1,
   (brace_paths_excluded [opImageIndex] opImageIndex (by decide)).2⟩

/-- C4: a path whose lowercased form contains any blocklist keyword —
anywhere in the path, also mid-word — is excluded from the status subset
by both scripts. -/
theorem blocklist_paths_excluded (ge : List Operation) (op : Operation)
    (kw : Str) (hkw : kw ∈ controlKeywordsCombined)
    (hc : pyContains (pyLower op.path) kw = true) :
    op ∉ statusEndpointsCombined ge ∧ op ∉ statusEndpointsPerFile ge := by
  have hctrl : isControlCombined op.path = true :=
    List.any_eq_true.mpr ⟨kw, hkw, hc⟩
  have hctrl' : isControlPerFile op.path = true :=
    List.any_eq_true.mpr ⟨kw, hkw, hc⟩
  constructor <;> intro hmem
  · have h2 := (List.mem_filter.mp hmem).2
    rw [hctrl] at h2
    simp at h2
  · have h2 := (List.mem_filter.mp hmem).2
    rw [hctrl'] at h2
    simp at h2

/-- C4 witness: `/mount/Unparking` matches the keyword `park` mid-word
and case-insensitively, and is excluded by both scripts. -/
theorem blocklist_paths_excluded_witness :
    "park".data ∈ controlKeywordsCombined ∧
    pyContains (pyLower opUnparking.path) "park".data = true ∧
    opUnparking ∉ statusEndpointsCombined [opUnparking] ∧
    opUnparking ∉ statusEndpointsPerFile [opUnparking] :=
  ⟨by decide, by decide,
   (blocklist_paths_excluded [opUnparking] opUnparking "park".data
     (by decide) (by decide)).1,
   (blocklist_paths_excluded [opUnparking] opUnparking "park".data
     (by decide) (by decide)).2⟩

/-- C6: in both scripts the fetch loop visits every classified endpoint
exactly once and records exactly one outcome for each, so the summary
counts satisfy `successful + failed = total classified endpoints`. -/
theorem run_attempts_every_classified_endpoint_once (pm : PathsMap)
    (version : Str) (http : Str → HttpResult) :
    (combinedRunCore pm version http).successfulFetches
        + (combinedRunCore pm version http).failedFetches
      = (combinedRunCore pm version http).statusEndpointsFetched ∧
    (combinedRunCore pm version http).outcomes.map (fun o => o.endpoint)
      = statusEndpointsCombined (getEndpointsCombined pm) ∧
    (runPerFile pm http).successfulFetches + (runPerFile pm http).failedFetches
      = (runPerFile pm http).totalStatusEndpoints ∧
    (runPerFile pm http).results.map (fun r => r.endpoint)
      = (statusEndpointsPerFile (getEndpointsPerFile pm)).map
          (fun op => op.path) := by
  refine ⟨?_, ?_, ?_, ?_⟩
  · show (_ : List FetchOutcome).countP _ + (_ : List FetchOutcome).countP _ = _
    rw [countP_add_countP_not]
    simp [combinedRunCore]
  · exact map_fetchOne_endpoint http (statusEndpointsCombined (getEndpointsCombined pm))
  · show (_ : List PerResult).countP _ + (_ : List PerResult).countP _ = _
    rw [countP_add_countP_not]
    simp [runPerFile]
  · exact map_perFetchOne_endpoint http (statusEndpointsPerFile (getEndpointsPerFile pm))

theorem fetchOne_invariant (http : Str → HttpResult) (op : Operation) :
    ((fetchOne http op).success = true → (fetchOne http op).errorMessage = none ∧
      ∃ c, (fetchOne http op).statusCode = some c ∧ ¬(400 ≤ c ∧ c < 600)) ∧
    ((fetchOne http op).success = false → (fetchOne http op).data = none) := by
  unfold fetchOne
  cases hnet : http (baseUrl ++ op.path) with
  | transportError msg => exact ⟨fun h => by simp at h, fun _ => rfl⟩
  | response code body =>
      dsimp only
      by_cases hr : raiseForStatus code = true
      · rw [if_pos hr]
        exact ⟨fun h => by simp at h, fun _ => rfl⟩
      · rw [if_neg hr]
        cases body with
        | none => exact ⟨fun h => by simp at h, fun _ => rfl⟩
        | some j =>
            refine ⟨fun _ => ⟨rfl, code, rfl, fun hc => ?_⟩, fun h => by simp at h⟩
            exact hr (by simp [raiseForStatus, hc.1, hc.2])

/-- C3 counterexample: a server answer `304 Not Modified` with a JSON
body passes `raise_for_status`, so the run records an outcome with
`success = true` whose status code is not 2xx-class; the claimed
invariant `success → statusCode is 2xx` fails on the code. -/
theorem success_with_non2xx_status :
    ((combinedRunCore pmVersionOnly "2.2.2.0".data http304).outcomes.map
        fun o => (o.success, o.statusCode)) = [(true, some 304)] ∧
    ¬(200 ≤ 304 ∧ 304 < 300) :=
  ⟨by decide, by decide⟩

/-- C3 amended: for every outcome of a combined run, `success = true`
implies `errorMessage` is absent and the status code is present and lies
outside the 400-599 range that `raise_for_status` rejects (but is not
necessarily 2xx-class, as redirect-class codes such as 304 also pass);
`success = false` implies `data` is absent. -/
theorem outcome_invariant (pm : PathsMap) (version : Str)
    (http : Str → HttpResult) (o : FetchOutcome)
    (ho : o ∈ (combinedRunCore pm version http).outcomes) :
    (o.success = true → o.errorMessage = none ∧
      ∃ c, o.statusCode = some c ∧ ¬(400 ≤ c ∧ c < 600)) ∧
    (o.success = false → o.data = none) := by
  have ho' : o ∈ (statusEndpointsCombined (getEndpointsCombined pm)).map
      (fetchOne http) := ho
  rcases List.mem_map.mp ho' with ⟨op, _, rfl⟩
  exact fetchOne_invariant http op

/-- C3 amended witness: the single outcome of a run over `/version`
against an all-200 network satisfies the amended invariant. -/
theorem outcome_invariant_witness :
    fetchOne httpOk200 opVersion
        ∈ (combinedRunCore pmVersionOnly "2.2.2.0".data httpOk200).outcomes ∧
    ((fetchOne httpOk200 opVersion).success = true →
      (fetchOne httpOk200 opVersion).errorMessage = none ∧
      ∃ c, (fetchOne httpOk200 opVersion).statusCode = some c ∧
        ¬(400 ≤ c ∧ c < 600)) ∧
    ((fetchOne httpOk200 opVersion).success = false →
      (fetchOne httpOk200 opVersion).data = none) :=
  have hmem : fetchOne httpOk200 opVersion
      ∈ (combinedRunCore pmVersionOnly "2.2.2.0".data httpOk200).outcomes :=
    List.Mem.head _
  ⟨hmem, outcome_invariant pmVersionOnly "2.2.2.0".data httpOk200
    (fetchOne httpOk200 opVersion) hmem⟩

theorem dictLookup_dictInsert {α : Type} (m : List (Str × α)) (k : Str)
    (v : α) (q : Str) :
    dictLookup (dictInsert m k v) q = if k = q then some v else dictLookup m q := by
  induction m with
  | nil => rfl
  | cons kv t ih =>
      obtain ⟨k', v'⟩ := kv
      by_cases hk : k' = k
      · simp only [dictInsert, if_pos hk, dictLookup]
        by_cases hq : k = q
        · rw [if_pos hq, if_pos hq]
        · rw [if_neg hq, if_neg hq, if_neg (by rw [hk]; exact hq)]
      · simp only [dictInsert, if_neg hk, dictLookup]
        by_cases hq : k' = q
        · rw [if_pos hq, if_neg (fun h => hk (by rw [h, hq])), if_pos hq]
        · rw [if_neg hq, if_neg hq, ih]

theorem mem_dictInsert {α : Type} : ∀ (m : List (Str × α)) (k : Str) (v : α)
    (kv : Str × α), kv ∈ dictInsert m k v → kv = (k, v) ∨ kv ∈ m
  | [], k, v, kv, h => by
      simp only [dictInsert] at h
      exact Or.inl (List.mem_singleton.mp h)
  | (k', v') :: t, k, v, kv, h => by
      by_cases hk : k' = k
      · simp only [dictInsert, if_pos hk] at h
        rcases List.mem_cons.mp h with h' | h'
        · exact Or.inl h'
        · exact Or.inr (List.Mem.tail _ h')
      · simp only [dictInsert, if_neg hk] at h
        rcases List.mem_cons.mp h with h' | h'
        · exact Or.inr (h' ▸ List.Mem.head _)
        · rcases mem_dictInsert t k v kv h' with h'' | h''
          · exact Or.inl h''
          · exact Or.inr (List.Mem.tail _ h'')

theorem dictLookup_foldl_insert {α β : Type} (key : β → Str) (val : β → α) :
    ∀ (xs : List β) (m : List (Str × α)) (k : Str),
      dictLookup (xs.foldl (fun m x => dictInsert m (key x) (val x)) m) k =
        match (xs.filter fun x => decide (key x = k)).getLast? with
        | some x => some (val x)
        | none => dictLookup m k
  | [], _, _ => rfl
  | x :: t, m, k => by
      rw [List.foldl_cons, dictLookup_foldl_insert key val t _ k, List.filter_cons]
      by_cases hx : key x = k
      · rw [if_pos (show (decide (key x = k)) = true from decide_eq_true hx)]
        cases h : (t.filter fun y => decide (key y = k)).getLast? with
        | some y => simp [h, List.getLast?_cons]
        | none => simp [h, List.getLast?_cons, dictLookup_dictInsert, hx]
      · rw [if_neg (show ¬(decide (key x = k)) = true from by simp [hx])]
        cases h : (t.filter fun y => decide (key y = k)).getLast? with
        | some y => simp [h]
        | none => simp [h, dictLookup_dictInsert, hx]

theorem foldl_insert_key_inv {α β : Type} (key : β → Str) (val : β → α)
    (P : Str × α → Prop) (hP : ∀ x, P (key x, val x)) :
    ∀ (xs : List β) (m : List (Str × α)), (∀ kv ∈ m, P kv) →
      ∀ kv ∈ xs.foldl (fun m x => dictInsert m (key x) (val x)) m, P kv
  | [], _, hm => hm
  | x :: t, m, hm => by
      rw [List.foldl_cons]
      refine foldl_insert_key_inv key val P hP t _ (fun kv hkv => ?_)
      rcases mem_dictInsert _ _ _ kv hkv with h | h
      · rw [h]; exact hP x
      · exact hm kv h

/-- C9: the combined script's `endpoints` map is keyed by the path with
leading and trailing slashes stripped; a lookup returns the entry of the
*last* classified endpoint whose stripped path equals the key, so a later
colliding endpoint silently overwrites an earlier one; and on a spec
declaring `/version` and `/version/` the map ends up with fewer entries
than classified endpoints. -/
theorem endpoints_map_keyed_and_last_wins :
    (∀ (pm : PathsMap) (version : Str) (http : Str → HttpResult),
      (∀ kv ∈ (combinedRunCore pm version http).endpoints,
        kv.1 = endpointKeyFor kv.2.path) ∧
      (∀ k : Str,
        dictLookup (combinedRunCore pm version http).endpoints k =
          match ((statusEndpointsCombined (getEndpointsCombined pm)).filter
              fun op => decide (endpointKeyFor op.path = k)).getLast? with
          | some op => some (entryOf (fetchOne http op))
          | none => none)) ∧
    (combinedRunCore pmVersionTwice "2.2.2.0".data httpOk200).endpoints.length
      < (combinedRunCore pmVersionTwice "2.2.2.0".data httpOk200).statusEndpointsFetched := by
  constructor
  · intro pm version http
    constructor
    · intro kv hkv
      have hkv' : kv ∈ ((statusEndpointsCombined (getEndpointsCombined pm)).map
          (fetchOne http)).foldl
            (fun m o => dictInsert m (endpointKeyFor o.endpoint.path) (entryOf o))
            [] := hkv
      exact foldl_insert_key_inv
        (fun o => endpointKeyFor o.endpoint.path) entryOf
        (fun kv => kv.1 = endpointKeyFor kv.2.path) (fun o => rfl)
        ((statusEndpointsCombined (getEndpointsCombined pm)).map (fetchOne http))
        [] (fun _ h => absurd h (List.not_mem_nil _)) kv hkv'
    · intro k
      rw [show (combinedRunCore pm version http).endpoints
            = ((statusEndpointsCombined (getEndpointsCombined pm)).map
                (fetchOne http)).foldl
                (fun m o => dictInsert m (endpointKeyFor o.endpoint.path)
                  (entryOf o)) [] from rfl,
         dictLookup_foldl_insert]
      rw [List.filter_map, List.getLast?_map]
      have hfc : ∀ l : List Operation,
          l.filter ((fun o => decide (endpointKeyFor o.endpoint.path = k))
              ∘ fetchOne http)
            = l.filter (fun op => decide (endpointKeyFor op.path = k)) := by
        intro l
        apply List.filter_congr
        intro op _
        simp [Function.comp, fetchOne_endpoint]
      rw [hfc]
      cases h : ((statusEndpointsCombined (getEndpointsCombined pm)).filter
          fun op => decide (endpointKeyFor op.path = k)).getLast? with
      | some op => simp [h]
      | none => simp [h, dictLookup]
  · decide

/-- C9 witness: on the two-endpoint spec the surviving entry under the
key `version` is the later endpoint's (`/version/`), with the stripped
path as key. -/
theorem endpoints_map_keyed_and_last_wins_witness :
    ("version".data, entryOf (fetchOne httpOk200 opVersionTrailing))
        ∈ (combinedRunCore pmVersionTwice "2.2.2.0".data httpOk200).endpoints ∧
    ("version".data, entryOf (fetchOne httpOk200 opVersionTrailing)).1
      = endpointKeyFor
          ("version".data, entryOf (fetchOne httpOk200 opVersionTrailing)).2.path ∧
    dictLookup (combinedRunCore pmVersionTwice "2.2.2.0".data httpOk200).endpoints
        "version".data =
      match ((statusEndpointsCombined (getEndpointsCombined pmVersionTwice)).filter
          fun op => decide (endpointKeyFor op.path = "version".data)).getLast? with
      | some op => some (entryOf (fetchOne httpOk200 op))
      | none => none :=
  have hmem : ("version".data, entryOf (fetchOne httpOk200 opVersionTrailing))
      ∈ (combinedRunCore pmVersionTwice "2.2.2.0".data httpOk200).endpoints :=
    List.Mem.head _
  ⟨hmem,
   (endpoints_map_keyed_and_last_wins.1 pmVersionTwice "2.2.2.0".data httpOk200).1
     _ hmem,
   (endpoints_map_keyed_and_last_wins.1 pmVersionTwice "2.2.2.0".data httpOk200).2
     "version".data⟩

theorem classifiedPaths_by_skeleton :
    ∀ pm : PathsMap,
      (statusEndpointsPerFile (getEndpointsPerFile pm)).map (fun op => op.path)
        = ((((pm.map fun e => (e.1, e.2.get.isSome)).filter fun e => e.2).map
              fun e => e.1).filter
            fun p => !(pyContains p ['{']) && !(isControlPerFile p))
  | [] => rfl
  | (p, me) :: t => by
      have ih := classifiedPaths_by_skeleton t
      cases hg : me.get with
      | none =>
          simp only [getEndpointsPerFile, statusEndpointsPerFile,
            List.filterMap_cons, hg, List.map_cons, List.filter_cons,
            Option.isSome_none] at ih ⊢
          simpa using ih
      | some g =>
          simp only [getEndpointsPerFile, statusEndpointsPerFile,
            List.filterMap_cons, hg, List.map_cons, List.filter_cons,
            Option.isSome_some] at ih ⊢
          by_cases hp : (!(pyContains p ['{']) && !(isControlPerFile p)) = true
          · simpa [hp] using ih
          · simp only [Bool.not_eq_true] at hp
            simpa [hp] using ih

/-- C10: classification reads nothing but the path strings and the
presence of a `get` method: two specs with the same paths and the same
`get`-presence in the same order — however their summaries, descriptions,
tags or other HTTP methods differ — classify exactly the same paths in
the same order, in both scripts. -/
theorem classification_ignores_metadata (pm1 pm2 : PathsMap)
    (h : pm1.map (fun e => (e.1, e.2.get.isSome))
       = pm2.map (fun e => (e.1, e.2.get.isSome))) :
    (statusEndpointsCombined (getEndpointsCombined pm1)).map (fun op => op.path)
      = (statusEndpointsCombined (getEndpointsCombined pm2)).map (fun op => op.path) ∧
    (statusEndpointsPerFile (getEndpointsPerFile pm1)).map (fun op => op.path)
      = (statusEndpointsPerFile (getEndpointsPerFile pm2)).map (fun op => op.path) := by
  have h1 := classifiedPaths_by_skeleton pm1
  have h2 := classifiedPaths_by_skeleton pm2
  constructor
  · show (statusEndpointsPerFile (getEndpointsPerFile pm1)).map (fun op => op.path)
      = (statusEndpointsPerFile (getEndpointsPerFile pm2)).map (fun op => op.path)
    rw [h1, h2, h]
  · rw [h1, h2, h]

/-- C10 witness: a bare `/version` spec and one with summary,
description, tags and an extra `post` method classify the same paths. -/
theorem classification_ignores_metadata_witness :
    pmVersionOnly.map (fun e => (e.1, e.2.get.isSome))
      = pmVersionRich.map (fun e => (e.1, e.2.get.isSome)) ∧
    (statusEndpointsCombined (getEndpointsCombined pmVersionOnly)).map
        (fun op => op.path)
      = (statusEndpointsCombined (getEndpointsCombined pmVersionRich)).map
          (fun op => op.path) ∧
    (statusEndpointsPerFile (getEndpointsPerFile pmVersionOnly)).map
        (fun op => op.path)
      = (statusEndpointsPerFile (getEndpointsPerFile pmVersionRich)).map
          (fun op => op.path) :=
  ⟨by decide,
   (classification_ignores_metadata pmVersionOnly pmVersionRich (by decide)).1,
   (classification_ignores_metadata pmVersionOnly pmVersionRich (by decide)).2⟩

theorem strLeB_total : ∀ a b : Str, (strLeB a b || strLeB b a) = true
  | [], _ => by simp [strLeB]
  | _ :: _, [] => by simp [strLeB]
  | a :: as, b :: bs => by
      by_cases hab : a = b
      · simp only [strLeB, if_pos hab, if_pos hab.symm]
        exact strLeB_total as bs
      · simp only [strLeB, if_neg hab, if_neg (Ne.symm hab)]
        rcases lt_or_gt_of_ne hab with h | h
        · simp [h]
        · simp [h]

theorem strLeB_trans : ∀ a b c : Str,
    strLeB a b = true → strLeB b c = true → strLeB a c = true
  | [], _, _ => fun _ _ => rfl
  | _ :: _, [], _ => fun h1 _ => by simp [strLeB] at h1
  | _ :: _, _ :: _, [] => fun _ h2 => by simp [strLeB] at h2
  | a :: as, b :: bs, c :: cs => fun h1 h2 => by
      by_cases hab : a = b <;> by_cases hbc : b = c
      · simp only [strLeB, if_pos hab] at h1
        simp only [strLeB, if_pos hbc] at h2
        simp only [strLeB, if_pos (hab.trans hbc)]
        exact strLeB_trans as bs cs h1 h2
      · simp only [strLeB, if_neg hbc] at h2
        have hac : a < c := hab ▸ of_decide_eq_true h2
        simp only [strLeB, if_neg (ne_of_lt hac)]
        exact decide_eq_true hac
      · simp only [strLeB, if_neg hab] at h1
        have hac : a < c := hbc ▸ of_decide_eq_true h1
        simp only [strLeB, if_neg (ne_of_lt hac)]
        exact decide_eq_true hac
      · simp only [strLeB, if_neg hab] at h1
        simp only [strLeB, if_neg hbc] at h2
        have hac : a < c := lt_trans (of_decide_eq_true h1) (of_decide_eq_true h2)
        simp only [strLeB, if_neg (ne_of_lt hac)]
        exact decide_eq_true hac

theorem addToCategory_self :
    ∀ (m : List (Str × List Operation)) (c : Str) (x : Operation),
      ∃ ops, (c, ops) ∈ addToCategory m c x ∧ x ∈ ops
  | [], _, x => ⟨[x], List.Mem.head _, List.Mem.head _⟩
  | (c', eps) :: t, c, x => by
      by_cases hc : c' = c
      · subst hc
        refine ⟨eps ++ [x], ?_, List.mem_append_right _ (List.Mem.head _)⟩
        simp only [addToCategory, if_pos rfl]
        exact List.Mem.head _
      · obtain ⟨ops, hmem, hx⟩ := addToCategory_self t c x
        refine ⟨ops, ?_, hx⟩
        simp only [addToCategory, if_neg hc]
        exact List.Mem.tail _ hmem

theorem addToCategory_preserves :
    ∀ (m : List (Str × List Operation)) (c' : Str) (x : Operation)
      (c : Str) (ops : List Operation), (c, ops) ∈ m →
      ∃ ops', (c, ops') ∈ addToCategory m c' x ∧ ∀ y ∈ ops, y ∈ ops'
  | [], _, _, _, _, h => absurd h (List.not_mem_nil _)
  | (c0, eps) :: t, c', x, c, ops, h => by
      by_cases hc : c0 = c'
      · rcases List.mem_cons.mp h with h' | h'
        · rw [Prod.mk.injEq] at h'
          obtain ⟨rfl, rfl⟩ := h'
          refine ⟨ops ++ [x], ?_, fun y hy => List.mem_append_left _ hy⟩
          simp only [addToCategory, if_pos hc]
          exact List.Mem.head _
        · refine ⟨ops, ?_, fun y hy => hy⟩
          simp only [addToCategory, if_pos hc]
          exact List.Mem.tail _ h'
      · rcases List.mem_cons.mp h with h' | h'
        · rw [Prod.mk.injEq] at h'
          obtain ⟨rfl, rfl⟩ := h'
          refine ⟨ops, ?_, fun y hy => hy⟩
          simp only [addToCategory, if_neg hc]
          exact List.Mem.head _
        · obtain ⟨ops', hmem, hsub⟩ := addToCategory_preserves t c' x c ops h'
          refine ⟨ops', ?_, hsub⟩
          simp only [addToCategory, if_neg hc]
          exact List.Mem.tail _ hmem

theorem addToCategory_pure :
    ∀ (m : List (Str × List Operation)) (x : Operation),
      (∀ cv ∈ m, ∀ y ∈ cv.2, categoryOf y = cv.1) →
      ∀ cv ∈ addToCategory m (categoryOf x) x, ∀ y ∈ cv.2, categoryOf y = cv.1
  | [], x, _ => by
      intro cv hcv y hy
      simp only [addToCategory] at hcv
      rcases List.mem_singleton.mp hcv with rfl
      rcases List.mem_singleton.mp hy with rfl
      rfl
  | (c0, eps) :: t, x, hm => by
      by_cases hc : c0 = categoryOf x
      · intro cv hcv y hy
        simp only [addToCategory, if_pos hc] at hcv
        rcases List.mem_cons.mp hcv with h' | h'
        · subst h'
          rcases List.mem_append.mp hy with hy' | hy'
          · exact hm (c0, eps) (List.Mem.head _) y hy'
          · rcases List.mem_singleton.mp hy' with rfl
            exact hc.symm
        · exact hm cv (List.Mem.tail _ h') y hy
      · intro cv hcv y hy
        simp only [addToCategory, if_neg hc] at hcv
        rcases List.mem_cons.mp hcv with h' | h'
        · subst h'
          exact hm (c0, eps) (List.Mem.head _) y hy
        · exact addToCategory_pure t x
            (fun cv h => hm cv (List.Mem.tail _ h)) cv h' y hy

theorem foldl_addToCategory_mem :
    ∀ (se : List Operation) (m : List (Str × List Operation)) (x : Operation),
      (x ∈ se ∨ ∃ ops, (categoryOf x, ops) ∈ m ∧ x ∈ ops) →
      ∃ ops, (categoryOf x, ops)
          ∈ se.foldl (fun m e => addToCategory m (categoryOf e) e) m ∧ x ∈ ops
  | [], _, _, h => by
      rcases h with h | h
      · exact absurd h (List.not_mem_nil _)
      · exact h
  | e :: t, m, x, h => by
      rw [List.foldl_cons]
      rcases h with h | ⟨ops, hmem, hx⟩
      · rcases List.mem_cons.mp h with rfl | h'
        · exact foldl_addToCategory_mem t _ x
            (Or.inr (addToCategory_self m (categoryOf x) x))
        · exact foldl_addToCategory_mem t _ x (Or.inl h')
      · obtain ⟨ops', hmem', hsub⟩ :=
          addToCategory_preserves m (categoryOf e) e (categoryOf x) ops hmem
        exact foldl_addToCategory_mem t _ x (Or.inr ⟨ops', hmem', hsub x hx⟩)

theorem foldl_addToCategory_pure :
    ∀ (se : List Operation) (m : List (Str × List Operation)),
      (∀ cv ∈ m, ∀ y ∈ cv.2, categoryOf y = cv.1) →
      ∀ cv ∈ se.foldl (fun m e => addToCategory m (categoryOf e) e) m,
        ∀ y ∈ cv.2, categoryOf y = cv.1
  | [], _, hm => hm
  | e :: t, m, hm => by
      rw [List.foldl_cons]
      exact foldl_addToCategory_pure t _ (addToCategory_pure m e hm)

theorem byCategory_mem (se : List Operation) (x : Operation) (hx : x ∈ se) :
    ∃ ops, (categoryOf x, ops) ∈ byCategory se ∧ x ∈ ops :=
  foldl_addToCategory_mem se [] x (Or.inl hx)

theorem byCategory_pure (se : List Operation) :
    ∀ cv ∈ byCategory se, ∀ y ∈ cv.2, categoryOf y = cv.1 :=
  foldl_addToCategory_pure se [] (fun _ h => absurd h (List.not_mem_nil _))

/-- C7: in the combined script's report every classified endpoint lands in
the bucket named by its first declared tag (the literal `Other` when it
has no tags) and in no other bucket; the buckets appear in ascending
alphabetical order of bucket name, and inside each bucket the entries
appear in ascending order of path. -/
theorem report_buckets_spec (se : List Operation) :
    (∀ op ∈ se, ∃ ops, (categoryOf op, ops) ∈ reportBuckets se ∧ op ∈ ops) ∧
    (∀ cv ∈ reportBuckets se, ∀ op ∈ cv.2, categoryOf op = cv.1) ∧
    List.Pairwise (fun a b => strLeB a b = true)
      ((reportBuckets se).map fun cv => cv.1) ∧
    (∀ cv ∈ reportBuckets se,
      List.Pairwise (fun a b => strLeB a b = true)
        (cv.2.map fun op => op.path)) := by
  refine ⟨?_, ?_, ?_, ?_⟩
  · intro op hop
    obtain ⟨ops, hmem, hin⟩ := byCategory_mem se op hop
    have hmem' : (categoryOf op, ops)
        ∈ (byCategory se).mergeSort (fun x y => strLeB x.1 y.1) :=
      (List.mergeSort_perm (byCategory se) _).mem_iff.mpr hmem
    refine ⟨ops.mergeSort (fun x y => strLeB x.path y.path), ?_, ?_⟩
    · exact List.mem_map_of_mem _ hmem'
    · exact (List.mergeSort_perm ops _).mem_iff.mpr hin
  · intro cv hcv op hop
    obtain ⟨cv0, hcv0, rfl⟩ := List.mem_map.mp hcv
    have hcv0' : cv0 ∈ byCategory se :=
      (List.mergeSort_perm (byCategory se) _).mem_iff.mp hcv0
    have hop' : op ∈ cv0.2 := (List.mergeSort_perm cv0.2 _).mem_iff.mp hop
    exact byCategory_pure se cv0 hcv0' op hop'
  · have hs := @List.sorted_mergeSort (Str × List Operation)
        (fun x y => strLeB x.1 y.1)
        (fun a b c hab hbc => strLeB_trans a.1 b.1 c.1 hab hbc)
        (fun a b => strLeB_total a.1 b.1) (byCategory se)
    rw [reportBuckets, List.map_map]
    exact List.Pairwise.map _ (fun a b h => h) hs
  · intro cv hcv
    obtain ⟨cv0, hcv0, rfl⟩ := List.mem_map.mp hcv
    have hs := @List.sorted_mergeSort Operation
        (fun x y => strLeB x.path y.path)
        (fun a b c hab hbc => strLeB_trans a.path b.path c.path hab hbc)
        (fun a b => strLeB_total a.path b.path) cv0.2
    exact List.Pairwise.map _ (fun a b h => h) hs

/-- C7 witness: on a three-endpoint list (tags `Sequence`, `Equipment`,
none) the report places the `Sequence` endpoint in its tag's bucket and
the bucket names come out sorted. -/
theorem report_buckets_spec_witness :
    opSeqState ∈ opsExample ∧
    (∃ ops, (categoryOf opSeqState, ops) ∈ reportBuckets opsExample ∧
      opSeqState ∈ ops) ∧
    List.Pairwise (fun a b => strLeB a b = true)
      ((reportBuckets opsExample).map fun cv => cv.1) :=
  ⟨by decide,
   (report_buckets_spec opsExample).1 opSeqState (by decide),
   (report_buckets_spec opsExample).2.2.1⟩

end NinaFetch
